import Mathlib

/-!
Verification development for the `chatbot-leis-sc` repository.

The repository is a retrieval-augmented chatbot over Santa Catarina state
legislation.  Its core is an ingestion pipeline (`src/data_prep.py`) that
normalizes law identifiers from file names, extracts text from HTML while
stripping revoked (struck-through) passages, splits the text into headered
chunks, and builds a vector index plus an ordered document map; and a
retrieval service (`src/rag_service.py`) implementing a hybrid retriever
(forced identifier lookup, falling back to vector search) and a response
orchestrator (intent filter, retrieval, generation).

This file is a shallow embedding of those components.  Text is modelled as
`List Char` (Lean 4.14 `String` is a structure wrapping `List Char`; working
on the list directly gives richer lemma support).  External services (the
Gemini LLM calls, the embedding service, the FAISS nearest-neighbour search,
the NLTK sentence tokenizer, BeautifulSoup's HTML parser and the file
system) are modelled as oracle inputs: LLM call results are `Option` fields
of an environment record (`none` = the `except` path), the embedding service
is an abstract function, parsed HTML is an inductive node tree, and the
sentence tokenizer's output is the chunker's input list.  Everything the
repository itself computes is translated operation by operation.
-/

namespace LeisSC

/-- Text is modelled as a list of characters (Python code points ↔ Lean
`Char`).  `String.length`, slicing and concatenation in the source all count
code points, as `List Char` does. -/
abbrev Str := List Char

/-- The characters of a Lean string literal, used to transcribe Python
string literals. -/
def chars (s : String) : Str := s.data

/-- Python's `\s` / `str.strip()` whitespace class, restricted to the ASCII
whitespace characters (space, tab, newline, carriage return, vertical tab,
form feed) that can occur in the repository's inputs. -/
def isWs (c : Char) : Bool :=
  c = ' ' || c = '\t' || c = '\n' || c = '\r' || c = Char.ofNat 11 || c = Char.ofNat 12

/-- Python `str.lower()` restricted to ASCII letters plus the accented
letters appearing in Portuguese legal file names; other characters are
unchanged, as in Python. -/
def charLower (c : Char) : Char :=
  if 'A' ≤ c ∧ c ≤ 'Z' then Char.ofNat (c.toNat + 32)
  else if c = 'Á' then 'á' else if c = 'À' then 'à' else if c = 'Â' then 'â'
  else if c = 'Ã' then 'ã' else if c = 'É' then 'é' else if c = 'Ê' then 'ê'
  else if c = 'Í' then 'í' else if c = 'Ó' then 'ó' else if c = 'Ô' then 'ô'
  else if c = 'Õ' then 'õ' else if c = 'Ú' then 'ú' else if c = 'Ü' then 'ü'
  else if c = 'Ç' then 'ç' else c

/-- Python `str.upper()` restricted to ASCII letters plus the accented
Portuguese letters; other characters are unchanged. -/
def charUpper (c : Char) : Char :=
  if 'a' ≤ c ∧ c ≤ 'z' then Char.ofNat (c.toNat - 32)
  else if c = 'á' then 'Á' else if c = 'à' then 'À' else if c = 'â' then 'Â'
  else if c = 'ã' then 'Ã' else if c = 'é' then 'É' else if c = 'ê' then 'Ê'
  else if c = 'í' then 'Í' else if c = 'ó' then 'Ó' else if c = 'ô' then 'Ô'
  else if c = 'õ' then 'Õ' else if c = 'ú' then 'Ú' else if c = 'ü' then 'Ü'
  else if c = 'ç' then 'Ç' else c

/-- Removes trailing whitespace (the right half of Python `str.strip()`),
written structurally recursively for easy induction. -/
def dropTrailing (l : Str) : Str :=
  match l with
  | [] => []
  | c :: t =>
    match dropTrailing t with
    | [] => if isWs c then [] else [c]
    | r => c :: r

/-- Python `str.strip()`: remove leading and trailing whitespace. -/
def stripStr (l : Str) : Str := dropTrailing (l.dropWhile isWs)

/-- Auxiliary state machine for whitespace collapsing: the flag records
whether the previous character was whitespace (whose run has already
produced its single `' '`). -/
def collapseAux : Bool → Str → Str
  | _, [] => []
  | prevWs, c :: t =>
    if isWs c then
      if prevWs then collapseAux true t else ' ' :: collapseAux true t
    else c :: collapseAux false t

/-- Python `re.sub(r"\s+", " ", s)`: every maximal whitespace run becomes a
single space. -/
def collapseWs (s : Str) : Str := collapseAux false s

/-- Python `sep.join(parts)`. -/
def joinSep (sep : Str) : List Str → Str
  | [] => []
  | [x] => x
  | x :: xs => x ++ sep ++ joinSep sep xs

/-- Python `needle in hay` substring test. -/
def containsSeq (needle : Str) : Str → Bool
  | [] => needle.isEmpty
  | c :: rest => needle.isPrefixOf (c :: rest) || containsSeq needle rest

/-- Decimal digit to character. -/
def digitChar (d : Nat) : Char :=
  if d = 0 then '0' else if d = 1 then '1' else if d = 2 then '2'
  else if d = 3 then '3' else if d = 4 then '4' else if d = 5 then '5'
  else if d = 6 then '6' else if d = 7 then '7' else if d = 8 then '8'
  else if d = 9 then '9' else '*'

/-- Decimal digits of `n`, most significant first, computed with explicit
fuel (`fuel ≥` the digit count suffices; callers pass `fuel = n`). -/
def decChars (fuel n : Nat) : Str :=
  match fuel with
  | 0 => []
  | f + 1 => if n = 0 then [] else decChars f (n / 10) ++ [digitChar (n % 10)]

/-- Python `str(n)` / f-string rendering of a natural number in decimal. -/
def natChars (n : Nat) : Str := if n = 0 then ['0'] else decChars n n

/-- Value of a decimal digit character. -/
def charVal (c : Char) : Nat := c.toNat - 48

/-- Parses a decimal digit string back to a number (left inverse used to
prove `natChars` injective). -/
def parseDec (l : Str) : Nat := l.foldl (fun a c => a * 10 + charVal c) 0

theorem charVal_digitChar {d : Nat} (h : d < 10) : charVal (digitChar d) = d := by
  interval_cases d <;> rfl

theorem parseDec_append (l : Str) (c : Char) :
    parseDec (l ++ [c]) = parseDec l * 10 + charVal c := by
  simp [parseDec, List.foldl_append]

theorem parseDec_decChars : ∀ (f n : Nat), n < 10 ^ f → parseDec (decChars f n) = n := by
  intro f
  induction f with
  | zero => intro n h; interval_cases n; rfl
  | succ f ih =>
    intro n h
    by_cases hn : n = 0
    · subst hn; rfl
    · have hdiv : n / 10 < 10 ^ f := by
        rw [Nat.div_lt_iff_lt_mul (by norm_num)]
        calc n < 10 ^ (f + 1) := h
        _ = 10 ^ f * 10 := by ring
      have hmod : n % 10 < 10 := Nat.mod_lt _ (by norm_num)
      simp only [decChars, hn, if_false, parseDec_append, ih _ hdiv,
        charVal_digitChar hmod]
      omega

theorem parseDec_natChars (n : Nat) : parseDec (natChars n) = n := by
  by_cases hn : n = 0
  · subst hn; rfl
  · have : n < 10 ^ n := Nat.lt_pow_self (by norm_num) n
    simp only [natChars, hn, if_false]
    exact parseDec_decChars n n this

theorem natChars_injective : Function.Injective natChars :=
  Function.LeftInverse.injective parseDec_natChars

/-! ## `data_prep.normalize_law_id`

`normalize_law_id(file_name)` lowercases the name, classifies the law type,
extracts the number with `re.search(r"(nº|n°|no|numero)?\s*([\d\.]+)", ...)`
(falling back to `re.search(r"(\d{4,})", ...)` and then `"0000"`), and takes
the maximum of the years found by `re.findall(r"(19\d{2}|20\d{2})", ...)`. -/

/-- Is the character a decimal digit or a dot (the class `[\d\.]`)? -/
def isDigitDot (c : Char) : Bool := c.isDigit || c = '.'

/-- Matches the regex `lc\s*nº?` at the head of the list: `"lc"`, then any
whitespace, then `'n'` (the trailing `º` is optional, so it does not affect
whether a match exists). -/
def lcMarkerAt : Str → Bool
  | 'l' :: 'c' :: rest =>
    match rest.dropWhile isWs with
    | 'n' :: _ => true
    | _ => false
  | _ => false

/-- True iff `re.search(r"lc\s*nº?", name)` succeeds, i.e. some position starts an
`lc`-number marker. -/
def hasLCMarker : Str → Bool
  | [] => false
  | c :: rest => lcMarkerAt (c :: rest) || hasLCMarker rest

/-- The type-classification chain of `normalize_law_id` (run on the
lowercased name): `complementar`/LC-marker → `LC`, else `decreto` →
`DECRETO`, else `lei`/`promulgada`/`ordinária` → `LEI`, else `DOC`. -/
def lawType (low : Str) : Str :=
  if containsSeq (chars "complementar") low || hasLCMarker low then chars "LC"
  else if containsSeq (chars "decreto") low then chars "DECRETO"
  else if containsSeq (chars "lei") low || containsSeq (chars "promulgada") low
      || containsSeq (chars "ordinária") low then chars "LEI"
  else chars "DOC"

/-- Group 2 of the leftmost match of `(nº|n°|no|numero)?\s*([\d\.]+)`.
Because the marker group and `\s*` are optional and consume only
non-digit-non-dot characters, the leftmost match always captures the first
maximal run of digits/dots in the string: the position of the first
digit-or-dot character itself starts a match (empty marker, empty `\s*`),
and any match starting earlier reaches that same character through
marker/whitespace characters only, so it captures the same run.  We embed
that equivalent form directly. -/
def firstDigitDotRun : Str → Option Str
  | [] => none
  | c :: rest =>
    if isDigitDot c then some ((c :: rest).takeWhile isDigitDot)
    else firstDigitDotRun rest

/-- Group 1 of the leftmost match of `(\d{4,})`: the first maximal digit run
of length at least four (positions inside a run start shorter runs, so
scanning position by position finds exactly the first long run). -/
def firstDigitRun4 : Str → Option Str
  | [] => none
  | c :: rest =>
    let run := (c :: rest).takeWhile Char.isDigit
    if 4 ≤ run.length then some run else firstDigitRun4 rest

/-- Does the 4-character window at the head match `19\d{2}|20\d{2}`?  If so,
return the year value. -/
def yearAt : Str → Option Nat
  | a :: b :: c :: d :: _ =>
    if ((a = '1' && b = '9') || (a = '2' && b = '0')) && c.isDigit && d.isDigit then
      some (1000 * charVal a + 100 * charVal b + 10 * charVal c + charVal d)
    else none
  | _ => none

/-- Models `re.findall(r"(19\d{2}|20\d{2})", low)`: non-overlapping matches scanned
left to right (after a match the scan resumes past its four characters; a
successful `yearAt` guarantees at least four characters, so the inner
default branch is unreachable). -/
def findYears : Str → List Nat
  | [] => []
  | c :: rest =>
    match yearAt (c :: rest) with
    | some y =>
      match rest with
      | _ :: _ :: _ :: r => y :: findYears r
      | _ => [y]
    | none => findYears rest

/-- Python `max(list)` with `0` for the empty list (years are positive, so
this is exactly `max(anos) if anos else 0`). -/
def maxList : List Nat → Nat
  | [] => 0
  | a :: t => t.foldl max a

/-- The number-extraction chain of `normalize_law_id` (on the lowercased
name): group 2 of the marker regex with non-digits stripped, else the first
run of four or more digits, else `"0000"`. -/
def lawNumber (low : Str) : Str :=
  match firstDigitDotRun low with
  | some run => run.filter Char.isDigit
  | none =>
    match firstDigitRun4 low with
    | some run => run
    | none => chars "0000"

/-- The year extraction of `normalize_law_id` (on the lowercased name). -/
def lawYear (low : Str) : Nat := maxList (findYears low)

/-- The function `data_prep.normalize_law_id`: returns the unique id
`f"{law_type}_{law_number}_{law_year}"` and the year. -/
def normalize_law_id (file_name : Str) : Str × Nat :=
  let low := file_name.map charLower
  (lawType low ++ '_' :: lawNumber low ++ '_' :: natChars (lawYear low), lawYear low)

/-! ## `data_prep.chunk_text_optimized`

The chunker consumes the sentence list produced by
`nltk.sent_tokenize(text, language="portuguese")`; the tokenizer is an
external library, so the embedding takes the sentence list as input. -/

def CHUNK_SIZE_LIMIT : Nat := 1500

def MIN_CHUNK_CONTENT_SIZE : Nat := 256

/-- The provenance header
`f"LEI JURÍDICA: {file_name} (Publicada em {law_year}). CONTEÚDO: "`. -/
def mkHeader (file_name : Str) (law_year : Nat) : Str :=
  chars "LEI JURÍDICA: " ++ file_name ++ chars " (Publicada em " ++ natChars law_year
    ++ chars "). CONTEÚDO: "

/-- Loop state of `chunk_text_optimized`: the running buffer
(`current_chunk`) and the emitted chunks (`optimized_chunks`). -/
structure ChunkAcc where
  current : Str
  chunks : List Str

/-- One iteration of the sentence loop.  The size comparison is computed
over `Int` because Python's `max_chunk_size - len(header)` may be negative.
If appending the sentence would overflow the limit and the buffer is larger
than the minimum, emit `header + current_chunk.strip()` and restart the
buffer from the sentence; otherwise append `" " + sentence`. -/
def chunkStep (header : Str) (max_chunk_size : Nat) (acc : ChunkAcc) (sentence : Str) :
    ChunkAcc :=
  if (acc.current.length + sentence.length + 1 : Int) >
      (max_chunk_size : Int) - (header.length : Int) ∧
      acc.current.length > MIN_CHUNK_CONTENT_SIZE then
    ⟨sentence, acc.chunks ++ [header ++ stripStr acc.current]⟩
  else
    ⟨acc.current ++ ' ' :: sentence, acc.chunks⟩

/-- The post-loop handling of the final buffer: if non-empty, append it as
a new headered chunk when its stripped content exceeds the minimum size or
no chunk exists yet, and otherwise merge it (with no duplicate header) into
the last emitted chunk. -/
def finalizeChunks (header : Str) (st : ChunkAcc) : List Str :=
  if st.current ≠ [] then
    if h : (stripStr st.current).length > MIN_CHUNK_CONTENT_SIZE ∨ st.chunks = [] then
      st.chunks ++ [header ++ stripStr st.current]
    else
      st.chunks.dropLast ++
        [st.chunks.getLast (by
          intro hnil
          exact (not_or.mp h).2 hnil) ++ ' ' :: stripStr st.current]
  else st.chunks

/-- The function `data_prep.chunk_text_optimized` on the tokenized sentences: run the
sentence loop, then handle the final buffer. -/
def chunk_text_optimized (sentences : List Str) (file_name : Str) (law_year : Nat)
    (max_chunk_size : Nat := CHUNK_SIZE_LIMIT) : List Str :=
  let header := mkHeader file_name law_year
  finalizeChunks header (sentences.foldl (chunkStep header max_chunk_size) ⟨[], []⟩)

/-! ## `data_prep.extract_article_id`

`re.search(r"(Art\.\s*\d+º?|§\s*\d+º?|Parágrafo\s*único|Caput)", chunk_text,
re.IGNORECASE)` followed by token normalization. -/

/-- Case-insensitive prefix match: if the pattern (written lowercase)
matches at the head up to `charLower`, return the matched original
characters and the remaining input. -/
def ciTake (pat : Str) (l : Str) : Option (Str × Str) :=
  match pat, l with
  | [], l => some ([], l)
  | _ :: _, [] => none
  | p :: ps, c :: cs =>
    if charLower c = p then
      match ciTake ps cs with
      | some (m, rest) => some (c :: m, rest)
      | none => none
    else none

/-- Matches `\s*\d+º?` at the head (at least one digit required); returns
the matched characters. -/
def wsDigitsOrd (l : Str) : Option Str :=
  let ws := l.takeWhile isWs
  let r := l.dropWhile isWs
  let ds := r.takeWhile Char.isDigit
  if ds.isEmpty then none
  else
    match r.drop ds.length with
    | 'º' :: _ => some (ws ++ ds ++ ['º'])
    | _ => some (ws ++ ds)

/-- The four alternatives of the article-marker regex, tried in pattern
order at a single position; returns the matched original characters. -/
def artAltAt (l : Str) : Option Str :=
  (match ciTake (chars "art.") l with
   | some (m, r) => (wsDigitsOrd r).map (m ++ ·)
   | none => none) <|>
  (match l with
   | '§' :: r => (wsDigitsOrd r).map ('§' :: ·)
   | _ => none) <|>
  (match ciTake (chars "parágrafo") l with
   | some (m, r) =>
     let ws := r.takeWhile isWs
     match ciTake (chars "único") (r.dropWhile isWs) with
     | some (m2, _) => some (m ++ ws ++ m2)
     | none => none
   | none => none) <|>
  (match ciTake (chars "caput") l with
   | some (m, _) => some m
   | none => none)

/-- Models `re.search` for the article-marker regex: leftmost position wins, and at
a position the alternatives are tried in pattern order. -/
def searchArt : Str → Option Str
  | [] => none
  | c :: rest =>
    match artAltAt (c :: rest) with
    | some m => some m
    | none => searchArt rest

/-- Python `\w` (word character) on the repository's inputs: ASCII letters
and digits, underscore, and the accented Portuguese letters. -/
def isWordChar (c : Char) : Bool :=
  c.isAlphanum || c = '_' ||
  c ∈ ['á', 'à', 'â', 'ã', 'é', 'ê', 'í', 'ó', 'ô', 'õ', 'ú', 'ü', 'ç',
       'Á', 'À', 'Â', 'Ã', 'É', 'Ê', 'Í', 'Ó', 'Ô', 'Õ', 'Ú', 'Ü', 'Ç']

/-- The normalization applied to the matched marker:
`.replace(" ", "_").replace(".", "").replace("º", "").upper()` followed by
`re.sub(r"[^\w_]", "", ...)`. -/
def normalizeArtToken (m : Str) : Str :=
  ((((m.map fun c => if c = ' ' then '_' else c).filter (· ≠ '.')).filter
      (· ≠ 'º')).map charUpper).filter (fun c => isWordChar c || c = '_')

/-- The function `data_prep.extract_article_id`: append the normalized first
article/paragraph/caput marker to the base id, or return the base id when
no marker occurs. -/
def extract_article_id (chunk_text : Str) (base_id : Str) : Str :=
  match searchArt chunk_text with
  | some m => base_id ++ '_' :: normalizeArtToken m
  | none => base_id

/-! ## `data_prep.extrair_texto_de_html`

BeautifulSoup is an external parser, so the embedding works on the parsed
document: an HTML node tree (element tags with children, and text nodes).
`tag.decompose()` removes an element and its whole subtree; `soup.find`
returns the first matching element in document (pre-order) order;
`tag.find_all` returns all matching descendants in pre-order;
`tag.get_text(separator=' ', strip=True)` joins the stripped non-empty
descendant strings with the separator.  File-read or parse failures (the
`except` branch) are modelled by the `none` input. -/

/-- A parsed HTML node: an element with a tag and children, or a text
node. -/
inductive HNode where
  | text (s : Str)
  | elem (tag : Str) (children : List HNode)

mutual

/-- Models `decompose()` of every element whose tag is in `tags` (applied to one
node): removing an element removes its whole subtree. -/
def pruneNode (tags : List Str) : HNode → Option HNode
  | .text s => some (.text s)
  | .elem t cs => if t ∈ tags then none else some (.elem t (pruneList tags cs))

/-- Models `decompose()` of every element whose tag is in `tags`, over a forest. -/
def pruneList (tags : List Str) : List HNode → List HNode
  | [] => []
  | n :: ns =>
    match pruneNode tags n with
    | some n' => n' :: pruneList tags ns
    | none => pruneList tags ns

end

mutual

/-- Models `soup.find(tag)`: the first element with the given tag in pre-order. -/
def findTag (tag : Str) : HNode → Option HNode
  | .text _ => none
  | .elem t cs => if t = tag then some (.elem t cs) else findTagList tag cs

/-- Models `find` over a forest, in document order. -/
def findTagList (tag : Str) : List HNode → Option HNode
  | [] => none
  | n :: ns =>
    match findTag tag n with
    | some r => some r
    | none => findTagList tag ns

end

mutual

/-- The raw strings of the text nodes of a subtree, in document order
(BeautifulSoup `element.strings`). -/
def rawTexts : HNode → List Str
  | .text s => [s]
  | .elem _ cs => rawTextsList cs

/-- Text-node strings of a forest, in document order. -/
def rawTextsList : List HNode → List Str
  | [] => []
  | n :: ns => rawTexts n ++ rawTextsList ns

end

mutual

/-- The text-node strings of a subtree that do NOT lie inside any element
whose tag is in `tags` (specification-side reading of "content nested inside
those tags is removed, sibling text is preserved"). -/
def textsOutside (tags : List Str) : HNode → List Str
  | .text s => [s]
  | .elem t cs => if t ∈ tags then [] else textsOutsideList tags cs

/-- The function `textsOutside` over a forest. -/
def textsOutsideList (tags : List Str) : List HNode → List Str
  | [] => []
  | n :: ns => textsOutside tags n ++ textsOutsideList tags ns

end

mutual

/-- Models `corpo.find_all(tags)` restricted to the descendants of one node:
matching elements in pre-order, nested matches included. -/
def findAllNode (tags : List Str) : HNode → List HNode
  | .text _ => []
  | .elem t cs =>
    if t ∈ tags then .elem t cs :: findAllList tags cs else findAllList tags cs

/-- Models `find_all` over a forest. -/
def findAllList (tags : List Str) : List HNode → List HNode
  | [] => []
  | n :: ns => findAllNode tags n ++ findAllList tags ns

end

/-- Models `find_all` on an element: it searches its descendants only (not the element
itself). -/
def findAllDesc (tags : List Str) : HNode → List HNode
  | .text _ => []
  | .elem _ cs => findAllList tags cs

/-- Models `tag.get_text(separator=" ", strip=True)`: strip each descendant
string, drop the empty ones, join with a single space. -/
def getTextStrip (n : HNode) : Str :=
  joinSep [' '] (((rawTexts n).map stripStr).filter (· ≠ []))

/-- The non-content tags removed first:
`soup(["script", "style", "header", "footer", "nav"])`. -/
def nonContentTags : List Str :=
  [chars "script", chars "style", chars "header", chars "footer", chars "nav"]

/-- The revoked-text tags removed next: `soup.find_all(["del", "strike"])`. -/
def revokedTags : List Str := [chars "del", chars "strike"]

/-- The block-level tags whose text is collected:
`corpo_principal.find_all(["p", "div", "h1", ..., "h6"])`. -/
def contentTags : List Str :=
  [chars "p", chars "div", chars "h1", chars "h2", chars "h3", chars "h4",
   chars "h5", chars "h6"]

/-- Models `sopa.find("main") or sopa.find("body")` on the pruned document. -/
def corpoPrincipal (docs : List HNode) : Option HNode :=
  match findTagList (chars "main") docs with
  | some n => some n
  | none => findTagList (chars "body") docs

/-- The collection stage run on the already-pruned document: find the main
container, join the `get_text` of every block-level descendant with single
spaces, collapse whitespace runs, strip. -/
def collectFromDoc (docs : List HNode) : Str :=
  match corpoPrincipal docs with
  | none => []
  | some corpo =>
    let texto_parts := (findAllDesc contentTags corpo).map getTextStrip
    stripStr (collapseWs (joinSep [' '] texto_parts))

/-- The function `data_prep.extrair_texto_de_html` on the parsed document (`none` models
the `except` branch: a file-read or parser failure yields `""`): remove
script/style/header/footer/nav, remove `del`/`strike`, then collect the
visible text of the main container. -/
def extrair_texto_de_html (input : Option (List HNode)) : Str :=
  match input with
  | none => []
  | some docs => collectFromDoc (pruneList revokedTags (pruneList nonContentTags docs))

/-! ## Ingestion: `data_prep.processar_e_salvar_leis`

Phase 1 walks the HTML tree and produces `chunks_data`, a list of records
`{id: f"doc_{id_counter}", text, metadata}` with a counter starting at 1;
the walk, extraction and chunking that produce the per-chunk payloads are
upstream of the ordering invariants, so the embedding takes the payload
list as input and models the id assignment, the document map construction
(`{item[id]: item for item in chunks_data}`, a Python dict preserving
first-insertion order), and the embedding-row construction (batches of 100
sent to the embedding service, whose contract returns one vector per input
in input order, then concatenated by `extend` and added to the flat index
in one `add` call). -/

/-- The per-chunk record stored in `chunks_data` / the document map
(`text` plus the `metadata` fields written by ingestion). -/
structure ChunkItem where
  text : Str
  fonte : Str
  ano_publicacao : Nat
  chunk_index : Nat
  idUnico : Str
deriving DecidableEq

/-- The Python id string `f"doc_{n}"`. -/
def mkDocId (n : Nat) : Str := chars "doc_" ++ natChars n

/-- The id-assignment loop: `id_counter` starts at the given value and
increments once per chunk. -/
def assignIds (counter : Nat) : List ChunkItem → List (Str × ChunkItem)
  | [] => []
  | it :: rest => (mkDocId counter, it) :: assignIds (counter + 1) rest

/-- The list `chunks_data` with its sequential ids (`id_counter = 1` initially). -/
def chunksData (items : List ChunkItem) : List (Str × ChunkItem) :=
  assignIds 1 items

/-- One Python dict insertion: an existing key is overwritten in place, a
new key is appended (dicts preserve first-insertion order). -/
def dictInsert {α : Type} : List (Str × α) → Str → α → List (Str × α)
  | [], k, v => [(k, v)]
  | (k', v') :: rest, k, v =>
    if k' = k then (k', v) :: rest else (k', v') :: dictInsert rest k v

/-- A Python dict built from a key/value sequence (the comprehension
`{item[id]: item for item in chunks_data}`). -/
def buildDict {α : Type} (l : List (Str × α)) : List (Str × α) :=
  l.foldl (fun m kv => dictInsert m kv.1 kv.2) []

/-- The map `DOCUMENTS_MAP` as persisted by ingestion. -/
def documentsMap (items : List ChunkItem) : List (Str × ChunkItem) :=
  buildDict (chunksData items)

/-- The function `data_prep.batch_list(iterable, n)`: slices of size `n` in order.
(Python raises on `n = 0`; the embedding returns `[]` there; all call sites
use `n = 100`.) -/
def batch_list {α : Type} (l : List α) (n : Nat) : List (List α) :=
  if n = 0 then []
  else
    match l with
    | [] => []
    | c :: rest => (c :: rest).take n :: batch_list ((c :: rest).drop n) n
  termination_by l.length
  decreasing_by
    simp [List.length_drop]
    omega

/-- The embedding rows added to the flat FAISS index: the chunk texts in
`chunks_data` order, batched by 100, each batch embedded by the external
service (one vector per input, in input order — the service boundary is the
abstract `embed`), concatenated by `extend`. -/
def embedRows {V : Type} (embed : Str → V) (items : List ChunkItem) : List V :=
  ((batch_list ((chunksData items).map (fun kv => kv.2.text)) 100).map
    (List.map embed)).flatten

/-! ## `rag_service`: the hybrid retriever and response orchestrator

External calls (the Gemini LLM extraction/rewrite/classification/generation
calls, the query-embedding call and the FAISS search) are oracles held in a
`RagEnv`; `none` models the corresponding `except` branch.  `get_context`
and `get_response` additionally return the list of external calls they
performed, so bypass claims ("the vector index is never searched",
"no generation call is made") are statements about that list. -/

/-- Python `s.split('_')` (empty segments preserved). -/
def splitUnderscore : Str → List Str
  | [] => [[]]
  | c :: t =>
    match splitUnderscore t with
    | h :: rs => if c = '_' then [] :: h :: rs else (c :: h) :: rs
    | [] => [[c]]

/-- Models `os.path.basename`: the suffix after the last slash (POSIX paths; the
ingested `fonte` values are bare file names). -/
def basename (p : Str) : Str := (p.reverse.takeWhile (· ≠ '/')).reverse

/-- Models `os.path.basename(source) if source else "Fonte Desconhecida"`. -/
def sourceName (fonte : Str) : Str :=
  if fonte = [] then chars "Fonte Desconhecida" else basename fonte

/-- The external calls `rag_service` can make, in the order performed. -/
inductive ExtCall where
  | llmExtract
  | rewrite
  | embed
  | faissSearch
  | classify
  | getCtx
  | generate
deriving DecidableEq

/-- The oracle environment: the loaded index/map state plus one response
per external service call (`none` = that call raised). -/
structure RagEnv (V : Type) where
  indexLoaded : Bool
  docMap : List (Str × ChunkItem)
  llmExtractRaw : Option Str
  rewriteRaw : Option Str
  embedQuery : Str → Option V
  faissSearch : V → Nat → Option (List Int)
  classifyRaw : Option Str
  genStream : Option Nat
  genErrorMsg : Str

/-- The function `rag_service.extract_unique_id`: the LLM response is stripped and
uppercased, then validated (`startswith(("LC_", "LEI_", "DECRETO_"))` and
exactly three `'_'`-separated parts); failures and exceptions yield
`None`. -/
def extract_unique_id {V : Type} (env : RagEnv V) : Option Str :=
  match env.llmExtractRaw with
  | none => none
  | some t =>
    let extracted_id := (stripStr t).map charUpper
    if (chars "LC_").isPrefixOf extracted_id ∨
        (chars "LEI_").isPrefixOf extracted_id ∨
        (chars "DECRETO_").isPrefixOf extracted_id then
      if (splitUnderscore extracted_id).length = 3 then some extracted_id else none
    else none

/-- Keyword alternation `(LC|LEI|DECRETO)` (IGNORECASE) at the head:
returns the keyword length. -/
def kwAt (l : Str) : Option Nat :=
  if (ciTake (chars "lc") l).isSome then some 2
  else if (ciTake (chars "lei") l).isSome then some 3
  else if (ciTake (chars "decreto") l).isSome then some 7
  else none

/-- Group 2 of `(LC|LEI|DECRETO)\s*(?:[^\d]+)?\s*([\d\.]+)` when the match
starts at the head.  `[^\d]+` can consume any non-digits (dots included),
so with backtracking the captured group is the maximal digit/dot run
starting at the first digit after the keyword; when no digit follows, the
giving-back stops at the last dot, capturing a single `"."`; with neither a
digit nor a dot after the keyword there is no match at this position. -/
def kwNumAt (l : Str) : Option Str :=
  match kwAt l with
  | none => none
  | some klen =>
    let rest := l.drop klen
    if rest.any Char.isDigit then
      some ((rest.dropWhile (fun c => !c.isDigit)).takeWhile isDigitDot)
    else if rest.any (· = '.') then some ['.']
    else none

/-- Models `re.search` for the keyword-number regex: leftmost match. -/
def searchKwNum : Str → Option Str
  | [] => none
  | c :: rest =>
    match kwNumAt (c :: rest) with
    | some g => some g
    | none => searchKwNum rest

/-- Group 1 of `Nº?\s*([\d\.]{4,})` (IGNORECASE) when the match starts at
the head: `'n'`, an optional `'º'`, whitespace, then at least four
digit/dot characters. -/
def nFallbackAt (l : Str) : Option Str :=
  match l with
  | c :: rest =>
    if c = 'n' ∨ c = 'N' then
      let rest2 := match rest with | 'º' :: r => r | _ => rest
      let run := (rest2.dropWhile isWs).takeWhile isDigitDot
      if 4 ≤ run.length then some run else none
    else none
  | [] => none

/-- Models `re.search` for the `Nº`-fallback regex: leftmost match. -/
def searchNFallback : Str → Option Str
  | [] => none
  | c :: rest =>
    match nFallbackAt (c :: rest) with
    | some g => some g
    | none => searchNFallback rest

/-- The function `rag_service.extract_law_number_from_query`: the keyword regex first
(returning its digit-stripped group when non-empty), then the `Nº`
fallback, then `None`. -/
def extract_law_number_from_query (query : Str) : Option Str :=
  let first :=
    match searchKwNum query with
    | some raw =>
      let clean := raw.filter Char.isDigit
      if clean ≠ [] then some clean else none
    | none => none
  match first with
  | some c => some c
  | none =>
    match searchNFallback query with
    | some raw =>
      let clean := raw.filter Char.isDigit
      if clean ≠ [] then some clean else none
    | none => none

/-- The function `rag_service.rewrite_query_with_context`: the LLM rewrite, stripped and
with newlines replaced by spaces; on exception the original query. -/
def rewrite_query_with_context {V : Type} (env : RagEnv V) (user_query : Str) : Str :=
  match env.rewriteRaw with
  | none => user_query
  | some t => (stripStr t).map (fun c => if c = '\n' then ' ' else c)

/-- The match test of the forced-lookup scan: exact `ID_UNICO` equality
when the LLM produced a full id, substring containment of the bare number
when only the regex fallback produced a number (the code's `elif` is
equivalent because `target_law_number` is only set when `target_unique_id`
is `None`). -/
def forcedMatch (targetId targetNum : Option Str) (item : ChunkItem) : Bool :=
  match targetId with
  | some uid => item.idUnico = uid
  | none =>
    match targetNum with
    | some n => containsSeq n item.idUnico
    | none => false

/-- The context part a forced match contributes:
`f"[Contexto Forçado ({source_name})]: {doc.strip()}"`. -/
def forcedPart (item : ChunkItem) : Str :=
  chars "[Contexto Forçado (" ++ sourceName item.fonte ++ chars ")]: " ++
    stripStr item.text

/-- One step of the forced-lookup scan over the document map: a match
appends its context part and inserts its source name into the set. -/
def forcedStep (targetId targetNum : Option Str) (acc : List Str × Finset Str)
    (kv : Str × ChunkItem) : List Str × Finset Str :=
  if forcedMatch targetId targetNum kv.2 then
    (acc.1 ++ [forcedPart kv.2], insert (sourceName kv.2.fonte) acc.2)
  else acc

/-- The forced-lookup loop of `get_context`. -/
def forcedScan (targetId targetNum : Option Str) (docMap : List (Str × ChunkItem)) :
    List Str × Finset Str :=
  docMap.foldl (forcedStep targetId targetNum) ([], ∅)

/-- Python `list(keys)[idx]` with negative indices. -/
def pyGet {α : Type} (l : List α) (idx : Int) : Option α :=
  if 0 ≤ idx then l.get? idx.toNat
  else
    let j := (l.length : Int) + idx
    if 0 ≤ j then l.get? j.toNat else none

/-- The retriever's index-to-chunk translation
(`if index < len(DOCUMENTS_MAP): doc_id = list(DOCUMENTS_MAP.keys())[index];
item = DOCUMENTS_MAP[doc_id]`).  The outer `none` is the failed guard (the
row is silently skipped); `some none` is an exception inside the `try`
(`IndexError`/`KeyError`). -/
def translateIndex (docMap : List (Str × ChunkItem)) (idx : Int) :
    Option (Option ChunkItem) :=
  if idx < (docMap.length : Int) then
    some (match pyGet (docMap.map Prod.fst) idx with
          | none => none
          | some key => (docMap.lookup key : Option ChunkItem))
  else none

/-- The separator `"\n\n---\n\n"` between context parts. -/
def ctxSep : Str := chars "\n\n---\n\n"

/-- The result-collection loop of the vector path: for each returned index
(with its enumeration position), translate it to a chunk and append a
`"[Contexto {i+1} ({source})]: {text.strip()}"` part; an exception aborts
the whole `try` block (`none`). -/
def vectorCollect (docMap : List (Str × ChunkItem)) :
    Nat → List Int → List Str × Finset Str → Option (List Str × Finset Str)
  | _, [], acc => some acc
  | i, idx :: more, acc =>
    match translateIndex docMap idx with
    | none => vectorCollect docMap (i + 1) more acc
    | some none => none
    | some (some item) =>
      let name := sourceName item.fonte
      vectorCollect docMap (i + 1) more
        (acc.1 ++ [chars "[Contexto " ++ natChars (i + 1) ++ chars " (" ++ name
            ++ chars ")]: " ++ stripStr item.text],
          insert name acc.2)

/-- The query-optimization hint prepended when a key was extracted but not
found in the map. -/
def forcedHint (key : Str) : Str :=
  chars "BUSCAR DETALHES DA LEI IDENTIFICADA COMO " ++ key ++
    chars ". Foco na Ementa, Artigo 1º e Objeto. "

/-- The function `rag_service.get_context`: the hybrid retrieval.  Returns the context
string, the set of cited source names, and the external calls made. -/
def get_context {V : Type} (env : RagEnv V) (query_text : Str)
    (history : List (Str × Str)) (k : Nat := 10) : Str × Finset Str × List ExtCall :=
  if env.indexLoaded = false then ([], ∅, []) else
  let target_unique_id := extract_unique_id env
  let target_law_number :=
    match target_unique_id with
    | some _ => none
    | none => extract_law_number_from_query query_text
  let calls0 := [ExtCall.llmExtract]
  let scan := forcedScan target_unique_id target_law_number env.docMap
  match scan.1 with
  | p :: parts => (joinSep ctxSep (p :: parts), scan.2, calls0)
  | [] =>
    let search_query := rewrite_query_with_context env query_text
    let calls1 := calls0 ++ [ExtCall.rewrite]
    let search_key_present := target_unique_id.isSome || target_law_number.isSome
    let search_key :=
      match target_unique_id with
      | some u => u
      | none => target_law_number.getD []
    let final_search_query :=
      if search_key_present then forcedHint search_key ++ search_query
      else search_query
    match env.embedQuery final_search_query with
    | none => ([], ∅, calls1 ++ [ExtCall.embed])
    | some v =>
      let calls2 := calls1 ++ [ExtCall.embed, ExtCall.faissSearch]
      match env.faissSearch v 10 with
      | none => ([], ∅, calls2)
      | some indices =>
        match vectorCollect env.docMap 0 indices ([], ∅) with
        | none => ([], ∅, calls2)
        | some (cparts, csrcs) => (joinSep ctxSep cparts, csrcs, calls2)

/-- The function `rag_service.classify_intent`: the LLM label, stripped and uppercased;
anything unparseable, and any exception, defaults to `"JURIDICA"`. -/
def classify_intent {V : Type} (env : RagEnv V) : Str :=
  match env.classifyRaw with
  | none => chars "JURIDICA"
  | some t =>
    let c := (stripStr t).map charUpper
    if c = chars "JURIDICA" ∨ c = chars "NAO_JURIDICA" then c else chars "JURIDICA"

/-- The fixed out-of-scope refusal returned for `NAO_JURIDICA` queries. -/
def foraDeEscopoMsg : Str :=
  chars "A sua pergunta foi classificada como de conhecimento geral/não-jurídica. Minha função é estritamente a consultoria de leis estaduais de Santa Catarina. Por não possuir uma base de dados com fatos atuais ou informações não-jurídicas, não posso fornecer a informação solicitada. Por favor, reformule sua pergunta para um tema legal."

/-- The fixed retrieval-error message returned when the context is empty. -/
def retrievalErrorMsg : Str :=
  chars "Desculpe, ocorreu um erro ao buscar os documentos. Por favor, tente novamente."

/-- The prefix of the generation-failure message. -/
def genErrorMsgStart : Str :=
  chars "Ocorreu um erro no processamento do Chat Gemini (Stream). Erro: "

/-- The first component of `get_response`: either a plain message string or the
streaming handle returned by the generation service. -/
inductive RagReply where
  | msg (s : Str)
  | stream (handle : Nat)
deriving DecidableEq

/-- The function `rag_service.get_response`: intent filter, retrieval, prompt assembly
and generation.  Returns the reply, the cited sources, and the external
calls made. -/
def get_response {V : Type} (env : RagEnv V) (user_query : Str)
    (history_for_context : List (Str × Str)) : RagReply × Finset Str × List ExtCall :=
  let intent := classify_intent env
  if intent = chars "NAO_JURIDICA" then
    (.msg foraDeEscopoMsg, ∅, [ExtCall.classify])
  else
    let r := get_context env user_query history_for_context 10
    let calls := ExtCall.classify :: ExtCall.getCtx :: r.2.2
    if r.1 = [] then (.msg retrievalErrorMsg, ∅, calls)
    else
      match env.genStream with
      | some h => (.stream h, r.2.1, calls ++ [ExtCall.generate])
      | none =>
        (.msg (genErrorMsgStart ++ env.genErrorMsg), r.2.1, calls ++ [ExtCall.generate])

/-! ## Specification-side definitions and concrete inputs used by the claim
theorems -/

/-- Is the first character absent or not whitespace? -/
def headNotWs : Str → Bool
  | [] => true
  | c :: _ => !isWs c

/-- Is the last character absent or not whitespace? -/
def lastNotWs : Str → Bool
  | [] => true
  | [c] => !isWs c
  | _ :: c :: t => lastNotWs (c :: t)

/-- No two adjacent whitespace characters. -/
def noDoubleWs : Str → Bool
  | [] => true
  | [_] => true
  | a :: b :: t => !(isWs a && isWs b) && noDoubleWs (b :: t)

/-- The shape of "whitespace-collapsed and trimmed" text: no leading or
trailing whitespace and no whitespace run of length two or more. -/
def wsNormalized (s : Str) : Bool := headNotWs s && lastNotWs s && noDoubleWs s

/-- A non-empty string with no leading or trailing whitespace — the shape of
the sentences `nltk.sent_tokenize` produces, which is the boundary contract
the chunker's input satisfies. -/
def trimmedB (s : Str) : Bool := !s.isEmpty && headNotWs s && lastNotWs s

/-- Invariant of the chunker's running buffer: empty, or trimmed, or a
single leading space followed by trimmed text. -/
def CurInv (cur : Str) : Prop :=
  cur = [] ∨ trimmedB cur = true ∨ ∃ u, cur = ' ' :: u ∧ trimmedB u = true

/-- A well-formed emitted chunk: the header followed by content of at least
the minimum size. -/
def GoodChunk (header c : Str) : Prop :=
  ∃ content, c = header ++ content ∧ MIN_CHUNK_CONTENT_SIZE ≤ content.length

/-- The number specification after amendment of claim C3: the digits of the
first maximal digit/dot run of the lowercased name; `"0000"` only when the
name contains no digit and no dot (so the `≥4`-digit fallback of the code
is dead). -/
def numberSpec (low : Str) : Str :=
  match firstDigitDotRun low with
  | some run => run.filter Char.isDigit
  | none => chars "0000"

/-- One marker alternative of claim C3's described algorithm: the marker is
REQUIRED, then optional whitespace, then a non-empty digit/dot run. -/
def markerTry (m : Str) (l : Str) : Option Str :=
  if m.isPrefixOf l then
    let run := ((l.drop m.length).dropWhile isWs).takeWhile isDigitDot
    if run ≠ [] then some run else none
  else none

/-- Claim C3's described marker search at one position, alternatives in the
pattern's order. -/
def markerNumAt (l : Str) : Option Str :=
  markerTry (chars "nº") l <|> markerTry (chars "n°") l <|>
  markerTry (chars "no") l <|> markerTry (chars "numero") l

/-- Claim C3's described marker search: leftmost position. -/
def searchMarkerNum : Str → Option Str
  | [] => none
  | c :: rest =>
    match markerNumAt (c :: rest) with
    | some g => some g
    | none => searchMarkerNum rest

/-- The number-extraction algorithm exactly as claim C3 states it: a marker
("nº"/"n°"/"no"/"numero") FOLLOWED by a digit/dot run, falling back when
the marker is absent to the first run of four or more digits, stripping
non-digits, defaulting to `"0000"`.  Stated only for comparison with the
code's `lawNumber`. -/
def numberPerClaimC3 (low : Str) : Str :=
  match searchMarkerNum low with
  | some g => g.filter Char.isDigit
  | none =>
    match firstDigitRun4 low with
    | some run => run
    | none => chars "0000"

/-- A parsed document whose only text node lies inside an `<s>` element
(inside the body), used to refute claim C4 as stated. -/
def c4Doc : List HNode :=
  [.elem (chars "body")
    [.elem (chars "p") [.elem (chars "s") [.text (chars "REVOGADO")]]]]

/-- A parsed document with no `main` and no `body` element, used to witness
claim C9. -/
def c9NoBodyDoc : List HNode :=
  [.elem (chars "p") [.text (chars "texto sem corpo")]]

/-- Concrete chunk records used by the retrieval witnesses. -/
def witItem1 : ChunkItem :=
  ⟨chars "  Texto do primeiro chunk da LC.  ", chars "LC 715.html", 2018, 0,
    chars "LC_715_2018"⟩

def witItem2 : ChunkItem :=
  ⟨chars "Outro chunk de outra lei.", chars "LEI X.html", 2000, 0, chars "LEI_1_2000"⟩

def witItem3 : ChunkItem :=
  ⟨chars "Segundo chunk da mesma LC.", chars "LC 715.html", 2018, 1,
    chars "LC_715_2018"⟩

/-- A loaded environment whose identifier-extraction call returns the id of
`witItem1`/`witItem3`, used to witness claim C1. -/
def envC1 : RagEnv Unit :=
  { indexLoaded := true
    docMap := [(chars "doc_1", witItem1), (chars "doc_2", witItem2),
               (chars "doc_3", witItem3)]
    llmExtractRaw := some (chars "LC_715_2018")
    rewriteRaw := none
    embedQuery := fun _ => none
    faissSearch := fun _ _ => none
    classifyRaw := none
    genStream := none
    genErrorMsg := [] }

/-- An environment whose intent classifier answers `NAO_JURIDICA`, used to
witness claim C7. -/
def envC7 : RagEnv Unit :=
  { indexLoaded := true
    docMap := []
    llmExtractRaw := none
    rewriteRaw := none
    embedQuery := fun _ => none
    faissSearch := fun _ _ => none
    classifyRaw := some (chars " nao_juridica ")
    genStream := some 0
    genErrorMsg := [] }

/-- An environment classified `JURIDICA` whose index is not loaded, so
retrieval yields the empty context; used to witness claim C8. -/
def envC8 : RagEnv Unit :=
  { indexLoaded := false
    docMap := []
    llmExtractRaw := none
    rewriteRaw := none
    embedQuery := fun _ => none
    faissSearch := fun _ _ => none
    classifyRaw := some (chars "JURIDICA")
    genStream := some 0
    genErrorMsg := [] }

/-- The sentence list of the chunking witness (two 300-character sentences
and a 50-character tail, mirroring the repository's chunking test). -/
def witSentences : List Str :=
  [List.replicate 300 'a', List.replicate 300 'b', List.replicate 50 'c']

/-! # Theorems -/

/-! ## Helper lemmas -/

theorem firstDigitRun4_of_none {l : Str} (h : firstDigitDotRun l = none) :
    firstDigitRun4 l = none := by
  induction l with
  | nil => rfl
  | cons c rest ih =>
    rw [firstDigitDotRun] at h
    by_cases hc : isDigitDot c = true
    · simp [hc] at h
    · have hcd : c.isDigit = false := by
        simp [isDigitDot] at hc
        exact hc.1
      rw [firstDigitRun4]
      simp only [List.takeWhile, hcd]
      simp only [List.length_nil]
      rw [if_neg (by omega)]
      rw [if_neg hc] at h
      exact ih h

theorem maxList_eq_foldl (l : List Nat) : maxList l = l.foldl max 0 := by
  cases l with
  | nil => rfl
  | cons a t => simp [maxList, List.foldl_cons, Nat.zero_max]

/-! ## Claim C6 — type classification precedence -/

/-- C6: `normalize_law_id` classifies the type with first-match-wins
precedence over the lowercased name: "complementar" or an LC-number marker
gives `LC`; otherwise "decreto" gives `DECRETO`; otherwise "lei",
"promulgada" or "ordinária" gives `LEI`; otherwise `DOC`. -/
theorem claim_C6 (name : Str) :
    ((normalize_law_id name).1 =
      lawType (name.map charLower) ++ '_' :: lawNumber (name.map charLower) ++
        '_' :: natChars (lawYear (name.map charLower))) ∧
    ((containsSeq (chars "complementar") (name.map charLower) = true ∨
        hasLCMarker (name.map charLower) = true) →
      lawType (name.map charLower) = chars "LC") ∧
    (¬(containsSeq (chars "complementar") (name.map charLower) = true ∨
        hasLCMarker (name.map charLower) = true) →
      containsSeq (chars "decreto") (name.map charLower) = true →
      lawType (name.map charLower) = chars "DECRETO") ∧
    (¬(containsSeq (chars "complementar") (name.map charLower) = true ∨
        hasLCMarker (name.map charLower) = true) →
      containsSeq (chars "decreto") (name.map charLower) = false →
      (containsSeq (chars "lei") (name.map charLower) = true ∨
        containsSeq (chars "promulgada") (name.map charLower) = true ∨
        containsSeq (chars "ordinária") (name.map charLower) = true) →
      lawType (name.map charLower) = chars "LEI") ∧
    (¬(containsSeq (chars "complementar") (name.map charLower) = true ∨
        hasLCMarker (name.map charLower) = true) →
      containsSeq (chars "decreto") (name.map charLower) = false →
      ¬(containsSeq (chars "lei") (name.map charLower) = true ∨
        containsSeq (chars "promulgada") (name.map charLower) = true ∨
        containsSeq (chars "ordinária") (name.map charLower) = true) →
      lawType (name.map charLower) = chars "DOC") := by
  refine ⟨rfl, ?_, ?_, ?_, ?_⟩
  · intro h
    rw [lawType, if_pos (by rcases h with h | h <;> simp [h])]
  · intro h hd
    rw [not_or] at h
    rw [lawType, if_neg (by simp [h.1, h.2]), if_pos (by simp [hd])]
  · intro h hd hl
    rw [not_or] at h
    rw [lawType, if_neg (by simp [h.1, h.2]), if_neg (by simp [hd]),
      if_pos (by rcases hl with h | h | h <;> simp [h])]
  · intro h hd hl
    rw [not_or] at h
    rw [not_or, not_or] at hl
    have h1 : containsSeq (chars "lei") (name.map charLower) = false := by
      simpa using hl.1
    have h2 : containsSeq (chars "promulgada") (name.map charLower) = false := by
      simpa using hl.2.1
    have h3 : containsSeq (chars "ordinária") (name.map charLower) = false := by
      simpa using hl.2.2
    rw [lawType, if_neg (by simp [h.1, h.2]), if_neg (by simp [hd]),
      if_neg (by simp [h1, h2, h3])]

/-- Witness for C6, one concrete name per branch of the classification. -/
theorem claim_C6_witness :
    lawType ((chars "LEI COMPLEMENTAR Nº 715, DE 16 DE JANEIRO DE 2018.html").map
      charLower) = chars "LC" ∧
    lawType ((chars "DECRETO Nº 456, de 1995.html").map charLower) = chars "DECRETO" ∧
    lawType ((chars "LEI Nº 17852_2020.html").map charLower) = chars "LEI" ∧
    lawType ((chars "ata 12 sessao 2020.html").map charLower) = chars "DOC" :=
  ⟨(claim_C6 _).2.1 (Or.inl (by decide)),
   (claim_C6 _).2.2.1 (by decide) (by decide),
   (claim_C6 _).2.2.2.1 (by decide) (by decide) (Or.inl (by decide)),
   (claim_C6 _).2.2.2.2 (by decide) (by decide) (by decide)⟩

/-! ## Claim C10 — `extract_article_id` output shape -/

/-- C10: `extract_article_id` always returns a string extending the base
id; when an article/paragraph/caput marker occurs in the chunk text the
result is the base id, an underscore and a normalized token of word
characters and underscores only; otherwise the base id unchanged. -/
theorem claim_C10 (chunk_text base_id : Str) :
    (∃ suffix, extract_article_id chunk_text base_id = base_id ++ suffix) ∧
    (∀ m, searchArt chunk_text = some m →
      ∃ tok, extract_article_id chunk_text base_id = base_id ++ '_' :: tok ∧
        tok.all (fun c => isWordChar c || c = '_') = true) ∧
    (searchArt chunk_text = none → extract_article_id chunk_text base_id = base_id) := by
  refine ⟨?_, ?_, ?_⟩
  · cases h : searchArt chunk_text with
    | none => exact ⟨[], by simp [extract_article_id, h]⟩
    | some m => exact ⟨'_' :: normalizeArtToken m, by simp [extract_article_id, h]⟩
  · intro m h
    refine ⟨normalizeArtToken m, by simp [extract_article_id, h], ?_⟩
    rw [List.all_eq_true]
    intro c hc
    have := List.mem_filter.mp hc
    exact this.2
  · intro h
    simp [extract_article_id, h]

/-- Witness for C10, on a chunk containing `"Art. 12"`. -/
theorem claim_C10_witness :
    searchArt (chars "No texto, o Art. 12 dispõe sobre multas.") =
      some (chars "Art. 12") ∧
    (∃ tok, extract_article_id (chars "No texto, o Art. 12 dispõe sobre multas.")
        (chars "LEI_100_2020") = chars "LEI_100_2020" ++ '_' :: tok ∧
      tok.all (fun c => isWordChar c || c = '_') = true) ∧
    extract_article_id (chars "sem marcador algum") (chars "LEI_100_2020") =
      chars "LEI_100_2020" :=
  ⟨by decide,
   (claim_C10 _ _).2.1 (chars "Art. 12") (by decide),
   (claim_C10 _ _).2.2 (by decide)⟩

/-! ## Claim C3 — number and year extraction (corrected) -/

/-- Counterexample to C3 as stated: in
`"ata 12 sessao 2020.html"` no marker occurs, so the claimed algorithm
falls back to the first run of four or more digits and yields `"2020"`,
but the code's regex has the marker in an optional group and therefore
captures the first digit/dot run `"12"`. -/
theorem claim_C3_counterexample :
    lawNumber ((chars "ata 12 sessao 2020.html").map charLower) = chars "12" ∧
    numberPerClaimC3 ((chars "ata 12 sessao 2020.html").map charLower) = chars "2020" ∧
    chars "12" ≠ chars "2020" ∧
    normalize_law_id (chars "ata 12 sessao 2020.html") = (chars "DOC_12_2020", 2020) :=
  ⟨by decide, by decide, by decide, by decide⟩

/-- C3 as amended: the marker group of the number regex is optional, so the
number is always the digit part of the first maximal digit/dot run of the
lowercased name; the `≥4`-digit fallback and the `"0000"` default apply
only when the name contains neither a digit nor a dot (and then the
fallback itself never matches).  The year is the maximum of the
non-overlapping `19xx`/`20xx` matches, defaulting to `0`; the `DECRETO`
example of the claim evaluates as stated. -/
theorem claim_C3_amended (name : Str) :
    lawNumber (name.map charLower) = numberSpec (name.map charLower) ∧
    lawYear (name.map charLower) = (findYears (name.map charLower)).foldl max 0 ∧
    normalize_law_id (chars "DECRETO Nº 456, de 1995. Texto de 2021.html") =
      (chars "DECRETO_456_2021", 2021) := by
  refine ⟨?_, maxList_eq_foldl _, by decide⟩
  rw [lawNumber, numberSpec]
  cases h : firstDigitDotRun (name.map charLower) with
  | some run => rfl
  | none => rw [firstDigitRun4_of_none h]

/-! ## Claim C4 — revoked-text removal (corrected) -/

mutual

/-- After pruning the elements whose tags are in `tags`, the surviving text
nodes of a node are exactly its text nodes not nested inside such an
element. -/
theorem rawTexts_pruneNode (tags : List Str) (n : HNode) :
    (match pruneNode tags n with
     | none => []
     | some m => rawTexts m) = textsOutside tags n := by
  cases n with
  | text s => rfl
  | elem t cs =>
    rw [pruneNode, textsOutside]
    by_cases h : t ∈ tags
    · simp [h]
    · simp only [h, if_false]
      exact rawTexts_pruneList tags cs

/-- Forest version of `rawTexts_pruneNode`. -/
theorem rawTexts_pruneList (tags : List Str) (l : List HNode) :
    rawTextsList (pruneList tags l) = textsOutsideList tags l := by
  cases l with
  | nil => rfl
  | cons n ns =>
    rw [pruneList, textsOutsideList]
    have hn := rawTexts_pruneNode tags n
    cases hpn : pruneNode tags n with
    | none =>
      rw [hpn] at hn
      rw [← hn, List.nil_append]
      exact rawTexts_pruneList tags ns
    | some m =>
      rw [hpn] at hn
      have hn' : rawTexts m = textsOutside tags n := hn
      rw [rawTextsList, hn']
      rw [rawTexts_pruneList tags ns]

end

/-- Counterexample to C4 as stated: a document whose only text node lies
inside an `<s>` element.  The claim says content nested inside `<del>`,
`<strike>` and `<s>` is removed before any text is collected, so the
extracted output here would have to be empty; the code removes only `del`
and `strike` and returns the revoked text. -/
theorem claim_C4_counterexample :
    rawTextsList c4Doc = [chars "REVOGADO"] ∧
    textsOutsideList (revokedTags ++ [chars "s"]) c4Doc = [] ∧
    extrair_texto_de_html (some c4Doc) = chars "REVOGADO" ∧
    chars "REVOGADO" ≠ [] :=
  ⟨by decide, by decide, by decide, by decide⟩

/-- C4 as amended: text extraction removes all content nested inside
`<del>` and `<strike>` (but not `<s>`) before any text is collected —
after the revocation prune the surviving text nodes are exactly those not
nested inside a `del`/`strike` element, sibling text preserved verbatim —
and the extraction output is computed from that pruned forest only. -/
theorem claim_C4_amended (docs : List HNode) :
    rawTextsList (pruneList revokedTags (pruneList nonContentTags docs)) =
      textsOutsideList revokedTags (pruneList nonContentTags docs) ∧
    extrair_texto_de_html (some docs) =
      collectFromDoc (pruneList revokedTags (pruneList nonContentTags docs)) :=
  ⟨rawTexts_pruneList _ _, rfl⟩

/-! ## Claim C9 — silent empty-result contract and output shape -/

theorem headNotWs_head? (l : Str) :
    headNotWs l = (match l.head? with | none => true | some c => !isWs c) := by
  cases l <;> rfl

theorem noDoubleWs_cons_of_headNotWs {x : Char} {l : Str} (h1 : headNotWs l = true)
    (h2 : noDoubleWs l = true) : noDoubleWs (x :: l) = true := by
  cases l with
  | nil => rfl
  | cons y t =>
    rw [headNotWs] at h1
    rw [noDoubleWs]
    simp only [Bool.not_eq_true'] at h1
    simp [h1, h2]

theorem collapseAux_good (s : Str) :
    (∀ b, noDoubleWs (collapseAux b s) = true) ∧
      headNotWs (collapseAux true s) = true := by
  induction s with
  | nil => exact ⟨fun _ => rfl, rfl⟩
  | cons c t ih =>
    constructor
    · intro b
      rw [collapseAux]
      by_cases hc : isWs c = true
      · rw [if_pos hc]
        cases b with
        | true => simpa using ih.1 true
        | false =>
          simp only [Bool.false_eq_true, if_false]
          exact noDoubleWs_cons_of_headNotWs ih.2 (ih.1 true)
      · rw [if_neg hc]
        cases hr : collapseAux false t with
        | nil => rfl
        | cons y r =>
          have := ih.1 false
          rw [hr] at this
          rw [noDoubleWs]
          simp only [Bool.not_eq_true'] at hc
          simp [hc, this]
    · rw [collapseAux]
      by_cases hc : isWs c = true
      · rw [if_pos hc, if_pos rfl]
        exact ih.2
      · rw [if_neg hc, headNotWs]
        simp [hc]

theorem headNotWs_dropWhile (l : Str) : headNotWs (l.dropWhile isWs) = true := by
  induction l with
  | nil => rfl
  | cons c t ih =>
    rw [List.dropWhile_cons]
    by_cases hc : isWs c = true
    · simpa [hc] using ih
    · simp [hc, headNotWs]

theorem noDoubleWs_tail {c : Char} {t : Str} (h : noDoubleWs (c :: t) = true) :
    noDoubleWs t = true := by
  cases t with
  | nil => rfl
  | cons y r =>
    rw [noDoubleWs] at h
    simp only [Bool.and_eq_true] at h
    exact h.2

theorem noDoubleWs_dropWhile {l : Str} (h : noDoubleWs l = true) :
    noDoubleWs (l.dropWhile isWs) = true := by
  induction l with
  | nil => exact h
  | cons c t ih =>
    rw [List.dropWhile_cons]
    by_cases hc : isWs c = true
    · simp only [hc, if_true]
      exact ih (noDoubleWs_tail h)
    · simpa [hc] using h

theorem head?_dropTrailing (l : Str) :
    dropTrailing l = [] ∨ (dropTrailing l).head? = l.head? := by
  cases l with
  | nil => exact Or.inl rfl
  | cons c t =>
    rw [dropTrailing]
    cases h : dropTrailing t with
    | nil =>
      by_cases hc : isWs c = true
      · exact Or.inl (by simp [hc])
      · exact Or.inr (by simp [hc])
    | cons y r => exact Or.inr rfl

theorem headNotWs_dropTrailing {l : Str} (h : headNotWs l = true) :
    headNotWs (dropTrailing l) = true := by
  rcases head?_dropTrailing l with h1 | h1
  · rw [h1]; rfl
  · rw [headNotWs_head?, h1, ← headNotWs_head?]
    exact h

theorem lastNotWs_dropTrailing (l : Str) : lastNotWs (dropTrailing l) = true := by
  induction l with
  | nil => rfl
  | cons c t ih =>
    rw [dropTrailing]
    cases h : dropTrailing t with
    | nil =>
      by_cases hc : isWs c = true
      · simp [hc, lastNotWs]
      · simp [hc, lastNotWs]
    | cons y r =>
      rw [lastNotWs, ← h]
      exact ih

theorem noDoubleWs_dropTrailing {l : Str} (h : noDoubleWs l = true) :
    noDoubleWs (dropTrailing l) = true := by
  induction l with
  | nil => rfl
  | cons c t ih =>
    rw [dropTrailing]
    cases hd : dropTrailing t with
    | nil =>
      by_cases hc : isWs c = true
      · simp [hc, noDoubleWs]
      · simp [hc, noDoubleWs]
    | cons y r =>
      have ht := ih (noDoubleWs_tail h)
      rw [hd] at ht
      rcases head?_dropTrailing t with h1 | h1
      · rw [h1] at hd; cases hd
      · rw [hd] at h1
        cases t with
        | nil => cases h1
        | cons z t' =>
          have hyz : y = z := by simpa using h1
          subst hyz
          rw [noDoubleWs] at h
          simp only [Bool.and_eq_true] at h
          rw [noDoubleWs]
          simp [h.1, ht]

/-- The extractor's final `re.sub(r"\s+", " ", ...).strip()` always yields
whitespace-normalized output. -/
theorem wsNormalized_strip_collapse (s : Str) :
    wsNormalized (stripStr (collapseWs s)) = true := by
  rw [wsNormalized, stripStr]
  have h1 : noDoubleWs (collapseWs s) = true := (collapseAux_good s).1 false
  have h3 := noDoubleWs_dropTrailing (noDoubleWs_dropWhile h1)
  have h5 := headNotWs_dropTrailing (headNotWs_dropWhile (collapseWs s))
  have h6 := lastNotWs_dropTrailing ((collapseWs s).dropWhile isWs)
  simp [h3, h5, h6]

/-- C9: text extraction returns the empty string — never an exception —
whenever processing fails (the `none` input models the `except` branch) or
the pruned document has no `main`/`body` container; on success it returns
the single-space-joined block texts, whitespace-collapsed and trimmed, and
in every case the output has no leading/trailing whitespace and no
whitespace run. -/
theorem claim_C9 :
    extrair_texto_de_html none = [] ∧
    (∀ docs,
      corpoPrincipal (pruneList revokedTags (pruneList nonContentTags docs)) = none →
      extrair_texto_de_html (some docs) = []) ∧
    (∀ docs corpo,
      corpoPrincipal (pruneList revokedTags (pruneList nonContentTags docs)) = some corpo →
      extrair_texto_de_html (some docs) =
        stripStr (collapseWs (joinSep [' ']
          ((findAllDesc contentTags corpo).map getTextStrip)))) ∧
    (∀ input, wsNormalized (extrair_texto_de_html input) = true) := by
  refine ⟨rfl, ?_, ?_, ?_⟩
  · intro docs h
    rw [extrair_texto_de_html, collectFromDoc, h]
  · intro docs corpo h
    rw [extrair_texto_de_html, collectFromDoc, h]
  · intro input
    match input with
    | none => rfl
    | some docs =>
      rw [extrair_texto_de_html, collectFromDoc]
      cases h : corpoPrincipal (pruneList revokedTags (pruneList nonContentTags docs)) with
      | none => rfl
      | some corpo => exact wsNormalized_strip_collapse _

/-! ## Claim C5 — chunk minimum-size invariant -/

theorem dropWhile_eq_self_of_headNotWs {l : Str} (h : headNotWs l = true) :
    l.dropWhile isWs = l := by
  cases l with
  | nil => rfl
  | cons c t =>
    rw [headNotWs, Bool.not_eq_true'] at h
    rw [List.dropWhile_cons, h]
    simp

theorem dropTrailing_eq_self {l : Str} (h : lastNotWs l = true) : dropTrailing l = l := by
  induction l with
  | nil => rfl
  | cons c t ih =>
    cases t with
    | nil =>
      rw [lastNotWs, Bool.not_eq_true'] at h
      rw [dropTrailing]
      simp [dropTrailing, h]
    | cons d t' =>
      rw [lastNotWs] at h
      rw [dropTrailing, ih h]

theorem trimmedB_parts {l : Str} (h : trimmedB l = true) :
    l ≠ [] ∧ headNotWs l = true ∧ lastNotWs l = true := by
  rw [trimmedB] at h
  simp only [Bool.and_eq_true, Bool.not_eq_true'] at h
  exact ⟨by simpa [List.isEmpty_iff] using h.1.1, h.1.2, h.2⟩

theorem stripStr_eq_self {l : Str} (h : trimmedB l = true) : stripStr l = l := by
  obtain ⟨_, h2, h3⟩ := trimmedB_parts h
  rw [stripStr, dropWhile_eq_self_of_headNotWs h2, dropTrailing_eq_self h3]

theorem stripStr_space_cons (u : Str) : stripStr (' ' :: u) = stripStr u := rfl

theorem headNotWs_append {l l' : Str} (h : l ≠ []) :
    headNotWs (l ++ l') = headNotWs l := by
  cases l with
  | nil => exact absurd rfl h
  | cons c t => rfl

theorem lastNotWs_append {l l' : Str} (h : l' ≠ []) :
    lastNotWs (l ++ l') = lastNotWs l' := by
  induction l with
  | nil => rfl
  | cons c t ih =>
    cases ht : t ++ l' with
    | nil => exact absurd (List.append_eq_nil.mp ht).2 h
    | cons d r =>
      rw [List.cons_append, ht, lastNotWs, ← ht, ih]

theorem trimmedB_append_sep {u s : Str} (hu : trimmedB u = true)
    (hs : trimmedB s = true) : trimmedB (u ++ ' ' :: s) = true := by
  obtain ⟨hu1, hu2, _⟩ := trimmedB_parts hu
  obtain ⟨hs1, _, hs3⟩ := trimmedB_parts hs
  rw [trimmedB]
  have hne : u ++ ' ' :: s ≠ [] := by simp
  have h1 : (u ++ ' ' :: s).isEmpty = false := by
    simpa [List.isEmpty_iff] using hne
  have h2 : headNotWs (u ++ ' ' :: s) = true := by
    rw [headNotWs_append hu1]; exact hu2
  have h3 : lastNotWs (u ++ ' ' :: s) = true := by
    rw [lastNotWs_append (by simp)]
    cases s with
    | nil => exact absurd rfl hs1
    | cons c t => rw [lastNotWs]; exact hs3
  simp [h1, h2, h3]

theorem chunkStep_inv (header : Str) (maxSize : Nat) (acc : ChunkAcc) (s : Str)
    (hs : trimmedB s = true) (hcur : CurInv acc.current)
    (hch : ∀ c ∈ acc.chunks, GoodChunk header c) :
    CurInv (chunkStep header maxSize acc s).current ∧
    ∀ c ∈ (chunkStep header maxSize acc s).chunks, GoodChunk header c := by
  rw [chunkStep]
  split
  · rename_i hcond
    refine ⟨Or.inr (Or.inl hs), ?_⟩
    intro c hc
    rw [List.mem_append] at hc
    rcases hc with hc | hc
    · exact hch c hc
    · rw [List.mem_singleton] at hc
      subst hc
      refine ⟨stripStr acc.current, rfl, ?_⟩
      have hlen : acc.current.length > MIN_CHUNK_CONTENT_SIZE := hcond.2
      rw [MIN_CHUNK_CONTENT_SIZE] at hlen ⊢
      rcases hcur with h0 | h0 | ⟨u, hu, hut⟩
      · rw [h0] at hlen
        simp at hlen
      · rw [stripStr_eq_self h0]
        omega
      · rw [hu, stripStr_space_cons, stripStr_eq_self hut]
        rw [hu, List.length_cons] at hlen
        omega
  · refine ⟨?_, hch⟩
    rcases hcur with h0 | h0 | ⟨u, hu, hut⟩
    · rw [h0, List.nil_append]
      exact Or.inr (Or.inr ⟨s, rfl, hs⟩)
    · exact Or.inr (Or.inl (trimmedB_append_sep h0 hs))
    · rw [hu, List.cons_append]
      exact Or.inr (Or.inr ⟨u ++ ' ' :: s, rfl, trimmedB_append_sep hut hs⟩)

theorem chunkFold_inv (header : Str) (maxSize : Nat) :
    ∀ (sentences : List Str) (acc : ChunkAcc),
      (∀ s ∈ sentences, trimmedB s = true) →
      CurInv acc.current → (∀ c ∈ acc.chunks, GoodChunk header c) →
      CurInv (sentences.foldl (chunkStep header maxSize) acc).current ∧
      ∀ c ∈ (sentences.foldl (chunkStep header maxSize) acc).chunks,
        GoodChunk header c := by
  intro sentences
  induction sentences with
  | nil => exact fun acc _ h1 h2 => ⟨h1, h2⟩
  | cons s rest ih =>
    intro acc hs h1 h2
    rw [List.foldl_cons]
    have hstep := chunkStep_inv header maxSize acc s (hs s (by simp)) h1 h2
    exact ih _ (fun x hx => hs x (by simp [hx])) hstep.1 hstep.2

theorem finalize_good (header : Str) (st : ChunkAcc)
    (hch : ∀ c ∈ st.chunks, GoodChunk header c) :
    (finalizeChunks header st).length = 1 ∨
    ∀ c ∈ finalizeChunks header st, GoodChunk header c := by
  rw [finalizeChunks]
  split
  · split
    · rename_i hbig
      by_cases hlen : (stripStr st.current).length > MIN_CHUNK_CONTENT_SIZE
      · right
        intro c hc
        rw [List.mem_append] at hc
        rcases hc with hc | hc
        · exact hch c hc
        · rw [List.mem_singleton] at hc
          subst hc
          exact ⟨stripStr st.current, rfl, by omega⟩
      · have hnil : st.chunks = [] := by
          rcases hbig with h | h
          · exact absurd h hlen
          · exact h
        left
        rw [hnil]
        rfl
    · rename_i hbig
      right
      intro c hc
      rw [List.mem_append] at hc
      rcases hc with hc | hc
      · exact hch c (List.dropLast_subset _ hc)
      · rw [List.mem_singleton] at hc
        subst hc
        obtain ⟨content0, heq, hlen0⟩ :=
          hch _ (List.getLast_mem fun hnil => (not_or.mp hbig).2 hnil)
        refine ⟨content0 ++ ' ' :: stripStr st.current, ?_, ?_⟩
        · rw [heq, List.append_assoc]
        · rw [List.length_append]
          omega
  · exact Or.inr hch

/-- C5: every chunk produced by the chunker (on sentences satisfying the
tokenizer's trimmed-and-non-empty output shape) consists of the header
followed by non-empty content of at least `MIN_CHUNK_CONTENT_SIZE` (256)
characters, except possibly when the output is a single chunk; a small
trailing fragment is merged into the previous chunk rather than emitted
standalone, which is what keeps the invariant at the end. -/
theorem claim_C5 (sentences : List Str) (file_name : Str)
    (law_year max_chunk_size : Nat)
    (hs : ∀ s ∈ sentences, trimmedB s = true) :
    (chunk_text_optimized sentences file_name law_year max_chunk_size).length = 1 ∨
    ∀ c ∈ chunk_text_optimized sentences file_name law_year max_chunk_size,
      ∃ content, c = mkHeader file_name law_year ++ content ∧
        content ≠ [] ∧ MIN_CHUNK_CONTENT_SIZE ≤ content.length := by
  have hfold := chunkFold_inv (mkHeader file_name law_year) max_chunk_size sentences
    ⟨[], []⟩ hs (Or.inl rfl) (fun c hc => absurd hc (List.not_mem_nil c))
  rw [chunk_text_optimized]
  rcases finalize_good (mkHeader file_name law_year) _ hfold.2 with h | h
  · exact Or.inl h
  · right
    intro c hc
    obtain ⟨content, h1, h2⟩ := h c hc
    refine ⟨content, h1, ?_, h2⟩
    intro hnil
    rw [hnil] at h2
    rw [MIN_CHUNK_CONTENT_SIZE] at h2
    simp at h2

/-- Witness for C5: the repository test's shape — 300-, 300- and
50-character sentences with `max_chunk_size = 400`. -/
theorem claim_C5_witness :
    (∀ s ∈ witSentences, trimmedB s = true) ∧
    ((chunk_text_optimized witSentences (chars "LC_999_2024.html") 2024 400).length = 1 ∨
    ∀ c ∈ chunk_text_optimized witSentences (chars "LC_999_2024.html") 2024 400,
      ∃ content, c = mkHeader (chars "LC_999_2024.html") 2024 ++ content ∧
        content ≠ [] ∧ MIN_CHUNK_CONTENT_SIZE ≤ content.length) :=
  ⟨by decide, claim_C5 witSentences (chars "LC_999_2024.html") 2024 400 (by decide)⟩

/-- Witness for C9: a document without `main`/`body` yields `""`, and a
document with a body hits the success shape. -/
theorem claim_C9_witness :
    corpoPrincipal (pruneList revokedTags (pruneList nonContentTags c9NoBodyDoc)) =
      none ∧
    extrair_texto_de_html (some c9NoBodyDoc) = [] ∧
    (∃ corpo,
      corpoPrincipal (pruneList revokedTags (pruneList nonContentTags c4Doc)) =
        some corpo ∧
      extrair_texto_de_html (some c4Doc) =
        stripStr (collapseWs (joinSep [' ']
          ((findAllDesc contentTags corpo).map getTextStrip)))) :=
  ⟨rfl, claim_C9.2.1 c9NoBodyDoc rfl,
   ⟨HNode.elem (chars "body")
      [.elem (chars "p") [.elem (chars "s") [.text (chars "REVOGADO")]]],
    rfl, claim_C9.2.2.1 c4Doc _ rfl⟩⟩

/-! ## Claim C1 — forced lookup bypasses the vector index -/

theorem forcedScan_foldl (uid : Str) (tn : Option Str) :
    ∀ (dm : List (Str × ChunkItem)) (acc : List Str × Finset Str),
      dm.foldl (forcedStep (some uid) tn) acc =
        (acc.1 ++ (dm.filter (fun kv => decide (kv.2.idUnico = uid))).map
            (fun kv => forcedPart kv.2),
         acc.2 ∪ ((dm.filter (fun kv => decide (kv.2.idUnico = uid))).map
            (fun kv => sourceName kv.2.fonte)).toFinset) := by
  intro dm
  induction dm with
  | nil => intro acc; simp
  | cons kv rest ih =>
    intro acc
    rw [List.foldl_cons]
    by_cases h : kv.2.idUnico = uid
    · have hm : forcedMatch (some uid) tn kv.2 = true := by
        rw [forcedMatch]
        exact decide_eq_true h
      rw [forcedStep, if_pos hm, ih]
      rw [List.filter_cons_of_pos (by exact decide_eq_true h), List.map_cons,
        List.map_cons, List.toFinset_cons, Finset.union_insert, Finset.insert_union,
        Prod.mk.injEq]
      exact ⟨by simp, rfl⟩
    · have hm : forcedMatch (some uid) tn kv.2 = false := by
        rw [forcedMatch]
        exact decide_eq_false h
      rw [forcedStep, if_neg (by rw [hm]; exact Bool.false_ne_true), ih]
      rw [List.filter_cons_of_neg (by simpa using h)]

theorem forcedScan_exact (uid : Str) (tn : Option Str) (dm : List (Str × ChunkItem)) :
    forcedScan (some uid) tn dm =
      ((dm.filter (fun kv => decide (kv.2.idUnico = uid))).map
          (fun kv => forcedPart kv.2),
       ((dm.filter (fun kv => decide (kv.2.idUnico = uid))).map
          (fun kv => sourceName kv.2.fonte)).toFinset) := by
  rw [forcedScan, forcedScan_foldl]
  simp

theorem joinSep_cons_ne_nil {sep x : Str} {xs : List Str} (h : x ≠ []) :
    joinSep sep (x :: xs) ≠ [] := by
  cases xs with
  | nil => exact h
  | cons y ys =>
    show x ++ sep ++ joinSep sep (y :: ys) ≠ []
    cases x with
    | nil => exact absurd rfl h
    | cons c t => simp

theorem forcedPart_ne_nil (item : ChunkItem) : forcedPart item ≠ [] := by
  rw [forcedPart]
  have h : chars "[Contexto Forçado (" = '[' :: chars "Contexto Forçado (" := rfl
  rw [h]
  simp

/-- C1: when the identifier extraction yields a full id equal to the
`ID_UNICO` of at least one chunk of the loaded document map, `get_context`
returns a non-empty context built exactly from the matching chunks' texts
(in map order) together with the set of their source basenames, and
performs no query-rewrite, query-embedding or nearest-neighbour call — its
only external call is the identifier extraction. -/
theorem claim_C1 {V : Type} (env : RagEnv V) (query : Str)
    (history : List (Str × Str)) (k : Nat) (uid : Str)
    (hload : env.indexLoaded = true)
    (hex : extract_unique_id env = some uid)
    (hmem : ∃ kv ∈ env.docMap, kv.2.idUnico = uid) :
    (get_context env query history k).1 =
      joinSep ctxSep ((env.docMap.filter
        (fun kv => decide (kv.2.idUnico = uid))).map (fun kv => forcedPart kv.2)) ∧
    (get_context env query history k).1 ≠ [] ∧
    (get_context env query history k).2.1 =
      ((env.docMap.filter (fun kv => decide (kv.2.idUnico = uid))).map
        (fun kv => sourceName kv.2.fonte)).toFinset ∧
    (get_context env query history k).2.2 = [ExtCall.llmExtract] := by
  obtain ⟨kv0, hkv0, hkv0id⟩ := hmem
  have hfil : kv0 ∈ env.docMap.filter (fun kv => decide (kv.2.idUnico = uid)) :=
    List.mem_filter.mpr ⟨hkv0, decide_eq_true hkv0id⟩
  have hne : (env.docMap.filter (fun kv => decide (kv.2.idUnico = uid))).map
      (fun kv => forcedPart kv.2) ≠ [] := by
    intro h
    rw [List.map_eq_nil] at h
    rw [h] at hfil
    exact List.not_mem_nil kv0 hfil
  cases hp : (env.docMap.filter (fun kv => decide (kv.2.idUnico = uid))).map
      (fun kv => forcedPart kv.2) with
  | nil => exact absurd hp hne
  | cons p parts =>
    rw [← hp]
    have hgc : get_context env query history k =
        (joinSep ctxSep ((env.docMap.filter
            (fun kv => decide (kv.2.idUnico = uid))).map (fun kv => forcedPart kv.2)),
          ((env.docMap.filter (fun kv => decide (kv.2.idUnico = uid))).map
            (fun kv => sourceName kv.2.fonte)).toFinset,
          [ExtCall.llmExtract]) := by
      rw [get_context, hload]
      simp only [Bool.true_eq_false, if_false, hex, forcedScan_exact, hp]
    rw [hgc]
    refine ⟨rfl, ?_, rfl, rfl⟩
    rw [hp]
    have hpne : p ≠ [] := by
      have hmem' : p ∈ (env.docMap.filter (fun kv => decide (kv.2.idUnico = uid))).map
          (fun kv => forcedPart kv.2) := by
        rw [hp]
        exact List.mem_cons_self p parts
      obtain ⟨kvp, _, hkvp⟩ := List.mem_map.mp hmem'
      rw [← hkvp]
      exact forcedPart_ne_nil kvp.2
    exact joinSep_cons_ne_nil hpne

/-! ## Claims C7 and C8 — response orchestrator short-circuits -/

/-- The retriever `get_context` never performs a generation call. -/
theorem generate_not_in_get_context {V : Type} (env : RagEnv V) (q : Str)
    (h : List (Str × Str)) (k : Nat) :
    ExtCall.generate ∉ (get_context env q h k).2.2 := by
  rw [get_context]
  split
  · simp
  · dsimp only
    split
    · simp
    · split
      · simp
      · split
        · simp
        · split
          · simp
          · simp

/-- C7: a query classified `NAO_JURIDICA` gets the fixed refusal string and
an empty source set, and neither retrieval (`get_context`) nor generation
is called — the only external call is the classification itself. -/
theorem claim_C7 {V : Type} (env : RagEnv V) (query : Str)
    (history : List (Str × Str))
    (h : classify_intent env = chars "NAO_JURIDICA") :
    get_response env query history =
      (.msg foraDeEscopoMsg, ∅, [ExtCall.classify]) ∧
    ExtCall.getCtx ∉ (get_response env query history).2.2 ∧
    ExtCall.generate ∉ (get_response env query history).2.2 := by
  have hr : get_response env query history =
      (.msg foraDeEscopoMsg, ∅, [ExtCall.classify]) := by
    rw [get_response]
    simp only [h, if_pos rfl]
    simp
  refine ⟨hr, ?_, ?_⟩ <;> rw [hr] <;> decide

/-- Witness for C7. -/
theorem claim_C7_witness :
    classify_intent envC7 = chars "NAO_JURIDICA" ∧
    get_response envC7 (chars "qual a previsão do tempo?") [] =
      (.msg foraDeEscopoMsg, ∅, [ExtCall.classify]) :=
  ⟨by decide,
   (claim_C7 envC7 (chars "qual a previsão do tempo?") [] (by decide)).1⟩

/-- C8: a query classified `JURIDICA` whose retrieval returns an empty
context gets the fixed retrieval-error string and an empty source set, and
the generation service is not called. -/
theorem claim_C8 {V : Type} (env : RagEnv V) (query : Str)
    (history : List (Str × Str))
    (hj : classify_intent env = chars "JURIDICA")
    (hemp : (get_context env query history 10).1 = []) :
    (get_response env query history).1 = .msg retrievalErrorMsg ∧
    (get_response env query history).2.1 = ∅ ∧
    ExtCall.generate ∉ (get_response env query history).2.2 := by
  have hr : get_response env query history =
      (.msg retrievalErrorMsg, ∅,
        ExtCall.classify :: ExtCall.getCtx :: (get_context env query history 10).2.2) := by
    rw [get_response]
    simp only [hj, if_neg (by decide : ¬(chars "JURIDICA" = chars "NAO_JURIDICA")),
      hemp, if_pos rfl]
    simp
  rw [hr]
  refine ⟨rfl, rfl, ?_⟩
  intro hmem
  rw [List.mem_cons, List.mem_cons] at hmem
  rcases hmem with h1 | h1 | h1
  · cases h1
  · cases h1
  · exact generate_not_in_get_context env query history 10 h1

/-- Witness for C8: an environment classified legal whose index is not
loaded, so retrieval returns the empty context. -/
theorem claim_C8_witness :
    classify_intent envC8 = chars "JURIDICA" ∧
    (get_context envC8 (chars "o que diz a lei?") [] 10).1 = [] ∧
    (get_response envC8 (chars "o que diz a lei?") []).1 = .msg retrievalErrorMsg ∧
    (get_response envC8 (chars "o que diz a lei?") []).2.1 = ∅ ∧
    ExtCall.generate ∉ (get_response envC8 (chars "o que diz a lei?") []).2.2 := by
  have h := claim_C8 envC8 (chars "o que diz a lei?") [] (by decide) (by decide)
  exact ⟨by decide, by decide, h.1, h.2.1, h.2.2⟩

/-! ## Claim C2 — index-row / document-map positional correspondence -/

theorem mkDocId_injective : Function.Injective mkDocId := by
  intro a b h
  rw [mkDocId, mkDocId] at h
  exact natChars_injective (List.append_cancel_left h)

theorem assignIds_length (items : List ChunkItem) :
    ∀ c, (assignIds c items).length = items.length := by
  induction items with
  | nil => intro c; rfl
  | cons x rest ih => intro c; rw [assignIds, List.length_cons, List.length_cons, ih]

theorem assignIds_get? (items : List ChunkItem) :
    ∀ (c i : Nat) (it : ChunkItem), items.get? i = some it →
      (assignIds c items).get? i = some (mkDocId (c + i), it) := by
  induction items with
  | nil =>
    intro c i it h
    cases h
  | cons x rest ih =>
    intro c i it h
    cases i with
    | zero =>
      rw [List.get?] at h
      injection h with h
      subst h
      rw [assignIds]
      rfl
    | succ j =>
      rw [List.get?] at h
      rw [assignIds, List.get?]
      have := ih (c + 1) j it h
      rw [this]
      have harith : c + 1 + j = c + (j + 1) := by omega
      rw [harith]

theorem assignIds_keys_mem (items : List ChunkItem) :
    ∀ (c : Nat) (key : Str), key ∈ (assignIds c items).map Prod.fst →
      ∃ m, c ≤ m ∧ key = mkDocId m := by
  induction items with
  | nil => intro c key h; cases h
  | cons x rest ih =>
    intro c key h
    rw [assignIds, List.map_cons, List.mem_cons] at h
    rcases h with h | h
    · exact ⟨c, le_refl c, h⟩
    · obtain ⟨m, hm, hk⟩ := ih (c + 1) key h
      exact ⟨m, by omega, hk⟩

theorem assignIds_keys_nodup (items : List ChunkItem) :
    ∀ c, ((assignIds c items).map Prod.fst).Nodup := by
  induction items with
  | nil => intro c; simp [assignIds]
  | cons x rest ih =>
    intro c
    rw [assignIds, List.map_cons, List.nodup_cons]
    refine ⟨?_, ih (c + 1)⟩
    intro hmem
    obtain ⟨m, hm, hk⟩ := assignIds_keys_mem rest (c + 1) _ hmem
    have := mkDocId_injective hk
    omega

theorem dictInsert_append {α : Type} (m : List (Str × α)) (k : Str) (v : α)
    (h : k ∉ m.map Prod.fst) : dictInsert m k v = m ++ [(k, v)] := by
  induction m with
  | nil => rfl
  | cons kv rest ih =>
    obtain ⟨k', v'⟩ := kv
    rw [List.map_cons, List.mem_cons, not_or] at h
    rw [dictInsert, if_neg (fun he => h.1 he.symm), ih h.2, List.cons_append]

theorem buildDict_foldl_eq {α : Type} :
    ∀ (l m : List (Str × α)),
      ((m ++ l).map Prod.fst).Nodup →
      l.foldl (fun d kv => dictInsert d kv.1 kv.2) m = m ++ l := by
  intro l
  induction l with
  | nil => intro m _; simp
  | cons kv rest ih =>
    intro m h
    rw [List.foldl_cons]
    have hmap : ((m ++ kv :: rest).map Prod.fst) =
        m.map Prod.fst ++ kv.1 :: rest.map Prod.fst := by
      rw [List.map_append, List.map_cons]
    rw [hmap, List.nodup_append] at h
    have hk : kv.1 ∉ m.map Prod.fst := by
      intro hmem
      exact h.2.2 hmem (List.mem_cons_self kv.1 _)
    rw [dictInsert_append m kv.1 kv.2 hk]
    have hnodup2 : (((m ++ [(kv.1, kv.2)]) ++ rest).map Prod.fst).Nodup := by
      rw [List.append_assoc, List.map_append, List.nodup_append]
      refine ⟨h.1, ?_, ?_⟩
      · rw [List.singleton_append, List.map_cons]
        exact h.2.1
      · intro a ha hb
        rw [List.singleton_append, List.map_cons] at hb
        exact h.2.2 ha hb
    rw [ih (m ++ [(kv.1, kv.2)]) hnodup2, List.append_assoc]
    rfl

/-- The Python dict comprehension keyed by the sequential ids preserves the
chunk list exactly: insertion order is chunk order. -/
theorem documentsMap_eq (items : List ChunkItem) :
    documentsMap items = chunksData items := by
  rw [documentsMap, buildDict]
  have h := buildDict_foldl_eq (chunksData items) []
  rw [List.nil_append] at h
  exact h (assignIds_keys_nodup items 1)

theorem lookup_of_get? {α : Type} :
    ∀ (l : List (Str × α)) (i : Nat) (k : Str) (v : α),
      (l.map Prod.fst).Nodup → l.get? i = some (k, v) → l.lookup k = some v := by
  intro l
  induction l with
  | nil => intro i k v _ h; cases h
  | cons kv rest ih =>
    intro i k v hnd h
    rw [List.map_cons, List.nodup_cons] at hnd
    cases i with
    | zero =>
      rw [List.get?] at h
      injection h with h
      subst h
      rw [List.lookup]
      simp
    | succ j =>
      rw [List.get?] at h
      have hkmem : k ∈ rest.map Prod.fst := by
        have := List.get?_mem h
        exact List.mem_map.mpr ⟨(k, v), this, rfl⟩
      have hne : k ≠ kv.1 := by
        intro he
        rw [← he] at hnd
        exact hnd.1 hkmem
      obtain ⟨k', v'⟩ := kv
      rw [List.lookup]
      have : (k == k') = false := by
        simp only [beq_eq_false_iff_ne, ne_eq]
        exact fun he => hne (by rw [he])
      rw [this]
      exact ih j k v hnd.2 h

theorem batch_list_flatten {α β : Type} (f : α → β) (n : Nat) (hn : n ≠ 0)
    (l : List α) : ((batch_list l n).map (List.map f)).flatten = l.map f := by
  have H : ∀ (len : Nat) (l : List α), l.length ≤ len →
      ((batch_list l n).map (List.map f)).flatten = l.map f := by
    intro len
    induction len with
    | zero =>
      intro l hl
      have hnil : l = [] := List.eq_nil_of_length_eq_zero (by omega)
      subst hnil
      rw [batch_list.eq_def]
      simp [hn]
    | succ m ihm =>
      intro l hl
      rw [batch_list.eq_def, if_neg hn]
      cases l with
      | nil => rfl
      | cons c rest =>
        dsimp only
        rw [List.map_cons, List.flatten_cons]
        have hdrop : ((c :: rest).drop n).length ≤ m := by
          rw [List.length_drop, List.length_cons]
          rw [List.length_cons] at hl
          omega
        rw [ihm _ hdrop, ← List.map_append, List.take_append_drop]
  exact H l.length l (le_refl _)

theorem embedRows_eq {V : Type} (embed : Str → V) (items : List ChunkItem) :
    embedRows embed items = ((chunksData items).map (fun kv => kv.2.text)).map embed :=
  by rw [embedRows, batch_list_flatten embed 100 (by omega)]

/-- C2: for every ingestion input and every position `i`, the persisted
document map lists the chunks in exactly their ingestion order, row `i` of
the embedding array is the embedding of the `i`-th chunk's text, and the
retriever's index-to-chunk translation applied to the persisted map at row
index `i` returns exactly the `i`-th chunk — the positional correspondence
the retriever depends on. -/
theorem claim_C2 {V : Type} (embed : Str → V) (items : List ChunkItem)
    (i : Nat) (it : ChunkItem) (h : items.get? i = some it) :
    documentsMap items = chunksData items ∧
    (embedRows embed items).get? i = some (embed it.text) ∧
    translateIndex (documentsMap items) (i : Int) = some (some it) := by
  have hget := assignIds_get? items 1 i it h
  have hlen : i < items.length := by
    rcases List.get?_eq_some.mp h with ⟨hlt, _⟩
    exact hlt
  have hmaplen : (chunksData items).length = items.length := assignIds_length items 1
  refine ⟨documentsMap_eq items, ?_, ?_⟩
  · rw [embedRows_eq, List.get?_map, List.get?_map]
    rw [chunksData] at *
    rw [hget]
    rfl
  · rw [documentsMap_eq, translateIndex]
    rw [if_pos (by rw [hmaplen]; exact_mod_cast hlen)]
    have hkey : ((chunksData items).map Prod.fst).get? i = some (mkDocId (1 + i)) := by
      rw [List.get?_map, chunksData, hget]
      rfl
    have hpy : pyGet ((chunksData items).map Prod.fst) (i : Int) =
        some (mkDocId (1 + i)) := by
      rw [pyGet, if_pos (by exact_mod_cast Nat.zero_le i)]
      rw [Int.toNat_ofNat]
      exact hkey
    rw [hpy]
    have hlook : (chunksData items).lookup (mkDocId (1 + i)) = some it :=
      lookup_of_get? (chunksData items) i (mkDocId (1 + i)) it
        (assignIds_keys_nodup items 1) hget
    exact congrArg some hlook

/-- Witness for C2, at position 1 of a two-chunk ingestion run with the
text-length function standing in for the embedding service. -/
theorem claim_C2_witness :
    [witItem1, witItem2].get? 1 = some witItem2 ∧
    (documentsMap [witItem1, witItem2] = chunksData [witItem1, witItem2] ∧
    (embedRows (fun s => s.length) [witItem1, witItem2]).get? 1 =
      some witItem2.text.length ∧
    translateIndex (documentsMap [witItem1, witItem2]) ((1 : Nat) : Int) =
      some (some witItem2)) :=
  ⟨rfl, claim_C2 (fun s => s.length) [witItem1, witItem2] 1 witItem2 rfl⟩

/-- Witness for C1: a loaded three-chunk map in which two chunks carry the
extracted id `LC_715_2018`. -/
theorem claim_C1_witness :
    envC1.indexLoaded = true ∧
    extract_unique_id envC1 = some (chars "LC_715_2018") ∧
    (∃ kv ∈ envC1.docMap, kv.2.idUnico = chars "LC_715_2018") ∧
    ((get_context envC1 (chars "o que diz a LC 715 de 2018?") [] 10).1 =
      joinSep ctxSep ((envC1.docMap.filter
        (fun kv => decide (kv.2.idUnico = chars "LC_715_2018"))).map
          (fun kv => forcedPart kv.2)) ∧
    (get_context envC1 (chars "o que diz a LC 715 de 2018?") [] 10).1 ≠ [] ∧
    (get_context envC1 (chars "o que diz a LC 715 de 2018?") [] 10).2.1 =
      ((envC1.docMap.filter
        (fun kv => decide (kv.2.idUnico = chars "LC_715_2018"))).map
          (fun kv => sourceName kv.2.fonte)).toFinset ∧
    (get_context envC1 (chars "o que diz a LC 715 de 2018?") [] 10).2.2 =
      [ExtCall.llmExtract]) :=
  ⟨rfl, by decide, ⟨(chars "doc_1", witItem1), by decide⟩,
   claim_C1 envC1 (chars "o que diz a LC 715 de 2018?") [] 10 (chars "LC_715_2018")
     rfl (by decide) ⟨(chars "doc_1", witItem1), by decide⟩⟩

end LeisSC
